import Mathlib

/-!
# Verification of the pine-analytics core

Shallow embedding of the pine-analytics modules (`merkle.rs`, `rate_limit.rs`,
`rbac.rs`, `aggregations.rs`, `state.rs`, `contract.rs`) and proofs about them.

Embedding conventions:
* `CryptoHash` (a 32-byte array) is encoded as a natural number (little-endian
  byte concatenation); the byte-wise XOR of `combine_hashes` is exactly
  `Nat.xor` on the encodings, and the all-zero hash is `0`.
* Rust `BTreeMap k v` is a key-sorted association list; `BTreeSet String` is a
  sorted string list.  `u64` counters are `Nat` (no claim depends on wrap-around).
* `f64` is modelled exactly: as `ℚ` in the rate limiter (only products and a
  truncating cast occur there) and as `ℝ` in the aggregation engine (square
  roots occur there).
* Rust `while` loops are embedded with an explicit fuel argument large enough
  for the loop to finish, so the definitions stay kernel-computable; unfolding
  lemmas recover the loop-step equation.
* Fallible Rust functions return `Except`; a panic is modelled as `Option.none`.
-/

deriving instance DecidableEq for Except

namespace Pine

/-! ## Key-sorted association lists (Rust `BTreeMap` with integer-like keys) -/

/-- `BTreeMap::get`: value of the first entry with the given key. -/
def lookupKey {α : Type} : List (Nat × α) → Nat → Option α
  | [], _ => none
  | (k, v) :: t, key => if key = k then some v else lookupKey t key

/-- `BTreeMap::insert`: insert at the sorted position, replacing an equal key. -/
def insertKey {α : Type} : List (Nat × α) → Nat → α → List (Nat × α)
  | [], k, v => [(k, v)]
  | (k', v') :: t, k, v =>
    if k < k' then (k, v) :: (k', v') :: t
    else if k = k' then (k, v) :: t
    else (k', v') :: insertKey t k v

/-- `BTreeMap::remove` (the entry, keyed). -/
def eraseKey {α : Type} : List (Nat × α) → Nat → List (Nat × α)
  | [], _ => []
  | (k', v') :: t, k => if k = k' then t else (k', v') :: eraseKey t k

def keysOf {α : Type} (l : List (Nat × α)) : List Nat := l.map Prod.fst

/-- The map invariant: entries strictly sorted by key. -/
def SortedKeys {α : Type} (l : List (Nat × α)) : Prop :=
  List.Pairwise (fun a b => a.1 < b.1) l

/-! ## `merkle.rs`: the Merkle index -/

/-- A 32-byte `CryptoHash`, encoded as a natural number below `2^256`. -/
abbrev Hash := Nat

/-- The "zero hash" `CryptoHash::from([0u8; 32])`. -/
def zeroHash : Hash := 0

/-- `MerkleIndex::combine_hashes`: byte-wise XOR of the two 32-byte arrays,
which is `Nat.xor` on the encodings. -/
def combineHashes (left right : Hash) : Hash := left ^^^ right

/-- `MerkleProof` (merkle.rs lines 24-33). -/
structure MerkleProof where
  path : List (Hash × Bool)
  leaf_hash : Hash
  event_id : Nat
deriving DecidableEq

/-- `MerkleIndex` (merkle.rs lines 11-22).  `internal_nodes` is never written
by any operation; it is kept for structural fidelity. -/
structure MerkleIndex where
  root : Option Hash
  depth : Nat
  leaves : List (Nat × Hash)
  internal_nodes : List (Nat × Hash)
deriving DecidableEq

/-- `MerkleIndex::new`. -/
def MerkleIndex.new (depth : Nat) : MerkleIndex :=
  { root := none, depth := depth, leaves := [], internal_nodes := [] }

/-- One pass of `for chunk in current_level.chunks(2)`, combining adjacent
pairs; a trailing odd element is combined with the zero hash
(`chunk.get(1).unwrap_or(&zero_hash)`). -/
def combinePairs : List Hash → List Hash
  | [] => []
  | [a] => [combineHashes a zeroHash]
  | a :: b :: t => combineHashes a b :: combinePairs t

/-- Doubling loop computing `usize::next_power_of_two`; `fuel = n` rounds are
enough since `n ≤ 2 ^ n`. -/
def nextPow2Aux (n : Nat) : Nat → Nat → Nat
  | 0, acc => acc
  | fuel + 1, acc => if n ≤ acc then acc else nextPow2Aux n fuel (2 * acc)

/-- `usize::next_power_of_two`: the least power of two `≥ n` (1 for `n ≤ 1`). -/
def nextPow2 (n : Nat) : Nat := nextPow2Aux n n 1

/-- `current_level.resize(next_pow2, zero_hash)` (the length only grows here). -/
def padToPow2 (l : List Hash) : List Hash :=
  l ++ List.replicate (nextPow2 l.length - l.length) zeroHash

/-- The `while current_level.len() > 1` loop of `recompute_root`, with fuel.
Each iteration at least halves the length, so `l.length` is enough fuel. -/
def rootLoopFuel : Nat → List Hash → List Hash
  | 0, l => l
  | fuel + 1, l => if 1 < l.length then rootLoopFuel fuel (combinePairs l) else l

def rootLoop (l : List Hash) : List Hash := rootLoopFuel l.length l

/-- `MerkleIndex::recompute_root`, as a function of the leaf map. -/
def recomputeRoot (leaves : List (Nat × Hash)) : Option Hash :=
  if leaves.isEmpty then none
  else (rootLoop (padToPow2 (leaves.map Prod.snd))).head?

/-- `MerkleIndex::insert_hash`: store/overwrite the leaf, then recompute. -/
def MerkleIndex.insert_hash (idx : MerkleIndex) (event_id : Nat) (event_hash : Hash) :
    MerkleIndex :=
  let leaves := insertKey idx.leaves event_id event_hash
  { idx with leaves := leaves, root := recomputeRoot leaves }

/-- The `while hashes.len() > 1` loop of `generate_proof`, with fuel:
record the sibling hash and side at each level, then move to the parent. -/
def proofLoopFuel : Nat → List Hash → Nat → List (Hash × Bool)
  | 0, _, _ => []
  | fuel + 1, hs, i =>
    if 1 < hs.length then
      (hs.getD (if i % 2 = 0 then i + 1 else i - 1) zeroHash, decide (i % 2 = 1)) ::
        proofLoopFuel fuel (combinePairs hs) (i / 2)
    else []

def proofLoop (hs : List Hash) (i : Nat) : List (Hash × Bool) :=
  proofLoopFuel hs.length hs i

/-- `MerkleIndex::generate_proof`. -/
def MerkleIndex.generate_proof (idx : MerkleIndex) (event_id : Nat) :
    Option MerkleProof :=
  match lookupKey idx.leaves event_id with
  | none => none
  | some leaf_hash =>
    match idx.leaves.findIdx? (fun p => p.1 == event_id) with
    | none => none
    | some leaf_index =>
      let hashes := padToPow2 (idx.leaves.map Prod.snd)
      some { path := proofLoop hashes leaf_index, leaf_hash := leaf_hash,
             event_id := event_id }

/-- The verification fold of `verify_proof`: combine with a left sibling as
`(sibling, current)` and with a right sibling as `(current, sibling)`. -/
def verifyFold (path : List (Hash × Bool)) (leaf : Hash) : Hash :=
  path.foldl
    (fun current p =>
      if p.2 then combineHashes p.1 current else combineHashes current p.1)
    leaf

/-- `MerkleIndex::verify_proof`. -/
def MerkleIndex.verify_proof (root : Hash) (proof : MerkleProof) : Bool :=
  verifyFold proof.path proof.leaf_hash == root

/-- `l.foldl insert_hash`: inserting a list of (id, hash) pairs in order. -/
def insertAll (idx : MerkleIndex) (l : List (Nat × Hash)) : MerkleIndex :=
  l.foldl (fun i p => i.insert_hash p.1 p.2) idx

/-! ## `rate_limit.rs`: the rate limiter

`ApplicationId` values are opaque ordered identifiers; they are embedded as
naturals. -/

/-- `RateLimitConfig` (rate_limit.rs lines 11-23); the `f64` burst multiplier
is modelled as an exact rational. -/
structure RateLimitConfig where
  max_events_per_app_per_block : Nat
  max_total_events_per_block : Nat
  burst_multiplier : ℚ
  cooldown_blocks : Nat
  enabled : Bool
deriving DecidableEq

/-- `RateLimitConfig::default` (lines 25-35). -/
def RateLimitConfig.default : RateLimitConfig :=
  { max_events_per_app_per_block := 100, max_total_events_per_block := 1000,
    burst_multiplier := 3 / 2, cooldown_blocks := 5, enabled := true }

/-- `BlockEventCount` (lines 38-42). -/
structure BlockEventCount where
  block_height : Nat
  count : Nat
deriving DecidableEq

/-- `RateLimiterState` (lines 45-57). -/
structure RateLimiterState where
  app_counters : List (Nat × BlockEventCount)
  global_counter : BlockEventCount
  blocked_apps : List (Nat × Nat)
  config : RateLimitConfig
  paused : Bool
deriving DecidableEq

/-- `RateLimitError` (lines 197-211). -/
inductive RateLimitError
  | AppLimitExceeded (app_id : Nat) (limit : Nat) (cooldown_blocks : Nat)
  | GlobalLimitExceeded (limit : Nat) (current : Nat)
  | AppBlocked (unblock_at : Nat) (current_block : Nat)
  | IngestionPaused
deriving DecidableEq

/-- `RateLimiterState::new` (lines 61-66): config plus `Default::default()`. -/
def RateLimiterState.new (config : RateLimitConfig) : RateLimiterState :=
  { app_counters := [], global_counter := ⟨0, 0⟩, blocked_apps := [],
    config := config, paused := false }

/-- The truncating cast `x as u64` applied to the `f64` product
`(max as f64) * burst_multiplier`: floor, saturating at zero below (the
`u64::MAX` saturation bound is never approached by the values considered). -/
def f64AsU64 (q : ℚ) : Nat := ⌊q⌋₊

/-- `RateLimiterState::reset_if_new_block` (lines 138-152). -/
def RateLimiterState.reset_if_new_block (s : RateLimiterState) (current_block : Nat) :
    RateLimiterState :=
  if s.global_counter.block_height ≠ current_block then
    { s with
      global_counter := ⟨current_block, 0⟩,
      app_counters := s.app_counters.map fun p =>
        if p.2.block_height ≠ current_block then (p.1, ⟨current_block, 0⟩) else p }
  else s

/-- Tail of `check_and_increment` after the pause/enabled/blocked checks
(lines 97-134): counter reset, global limit check, per-app limit check (the
`entry(..).or_insert` materializes a zero counter for the app), then the
increments. -/
def RateLimiterState.checkCounters (s0 : RateLimiterState) (app_id current_block : Nat) :
    Except RateLimitError Unit × RateLimiterState :=
  let s := s0.reset_if_new_block current_block
  let max_global :=
    f64AsU64 ((s.config.max_total_events_per_block : ℚ) * s.config.burst_multiplier)
  if max_global ≤ s.global_counter.count then
    (Except.error (RateLimitError.GlobalLimitExceeded max_global s.global_counter.count), s)
  else
    let app_counter := (lookupKey s.app_counters app_id).getD ⟨current_block, 0⟩
    let s := { s with app_counters := insertKey s.app_counters app_id app_counter }
    let max_app :=
      f64AsU64 ((s.config.max_events_per_app_per_block : ℚ) * s.config.burst_multiplier)
    if max_app ≤ app_counter.count then
      (Except.error (RateLimitError.AppLimitExceeded app_id max_app s.config.cooldown_blocks),
       { s with blocked_apps :=
          insertKey s.blocked_apps app_id (current_block + s.config.cooldown_blocks) })
    else
      (Except.ok (),
       { s with
         app_counters := insertKey s.app_counters app_id
           ⟨app_counter.block_height, app_counter.count + 1⟩,
         global_counter := ⟨s.global_counter.block_height, s.global_counter.count + 1⟩ })

/-- `RateLimiterState::check_and_increment` (lines 69-135). -/
def RateLimiterState.check_and_increment (s : RateLimiterState) (app_id current_block : Nat) :
    Except RateLimitError Unit × RateLimiterState :=
  if s.paused then (Except.error RateLimitError.IngestionPaused, s)
  else if !s.config.enabled then (Except.ok (), s)
  else
    match lookupKey s.blocked_apps app_id with
    | some unblock_at =>
      if current_block < unblock_at then
        (Except.error (RateLimitError.AppBlocked unblock_at current_block), s)
      else
        RateLimiterState.checkCounters
          { s with blocked_apps := eraseKey s.blocked_apps app_id } app_id current_block
    | none => RateLimiterState.checkCounters s app_id current_block

/-- `n` successive `check_and_increment` calls for one app at one block. -/
def iterCheck (app block : Nat) : Nat → RateLimiterState → RateLimiterState
  | 0, s => s
  | n + 1, s => ((iterCheck app block n s).check_and_increment app block).2

/-- The configuration of the C3 admission-fairness scenario: per-app max 5,
burst 1.0, enabled, with an unconstrained global max and cooldown. -/
def c3Config (g c : Nat) : RateLimitConfig :=
  { max_events_per_app_per_block := 5, max_total_events_per_block := g,
    burst_multiplier := 1, cooldown_blocks := c, enabled := true }

/-- The rate-limiter state reached after `k` admitted events for `app` at
block 1 in the C3 scenario. -/
def c3State (app g c k : Nat) : RateLimiterState :=
  { app_counters := [(app, ⟨1, k⟩)], global_counter := ⟨1, k⟩, blocked_apps := [],
    config := c3Config g c, paused := false }

/-- A concrete rate-limiter state (per-app max 0, global max 10, burst 1.0,
cooldown 3, enabled, not paused, counters already at block 1) used to test
what a rejected call leaves behind. -/
def c4State : RateLimiterState :=
  { app_counters := [(7, ⟨1, 0⟩)], global_counter := ⟨1, 0⟩, blocked_apps := [],
    config := { max_events_per_app_per_block := 0, max_total_events_per_block := 10,
                burst_multiplier := 1, cooldown_blocks := 3, enabled := true },
    paused := false }

/-! ## `rbac.rs`: role-based access control

`Owner` (`AccountOwner`) values are opaque ordered identities, embedded as
naturals. -/

/-- `Role` (rbac.rs lines 12-23). -/
inductive Role
  | SuperAdmin
  | Admin
  | Operator
  | DataIngester
  | Viewer
deriving DecidableEq

/-- `RBACError` (lines 149-156). -/
inductive RBACError
  | CannotDemoteSuperAdmin
  | InsufficientPermissions
  | CannotManageHigherRole
deriving DecidableEq

/-- `RBACState` (lines 54-59). -/
structure RBACState where
  roles : List (Nat × Role)
  super_admin : Option Nat
deriving DecidableEq

/-- `RBACState::new` (lines 63-70). -/
def RBACState.new (super_admin : Nat) : RBACState :=
  { roles := [(super_admin, Role.SuperAdmin)], super_admin := some super_admin }

/-- `RBACState::get_role` (lines 73-75). -/
def RBACState.get_role (s : RBACState) (owner : Nat) : Role :=
  (lookupKey s.roles owner).getD Role.Viewer

/-- `RBACState::assign_role` (lines 78-85). -/
def RBACState.assign_role (s : RBACState) (owner : Nat) (role : Role) :
    Except RBACError Unit × RBACState :=
  if s.super_admin = some owner ∧ role ≠ Role.SuperAdmin then
    (Except.error RBACError.CannotDemoteSuperAdmin, s)
  else
    (Except.ok (), { s with roles := insertKey s.roles owner role })

/-- `RBACState::remove_role` (lines 88-94). -/
def RBACState.remove_role (s : RBACState) (owner : Nat) :
    Except RBACError Unit × RBACState :=
  if s.super_admin = some owner then
    (Except.error RBACError.CannotDemoteSuperAdmin, s)
  else
    (Except.ok (), { s with roles := eraseKey s.roles owner })

/-- The RBAC states reachable through `new`, `assign_role` and `remove_role`
(both their success and failure outcomes keep the reached state). -/
inductive RBACReachable : RBACState → Prop
  | new (sa : Nat) : RBACReachable (RBACState.new sa)
  | assign {s : RBACState} (owner : Nat) (role : Role) :
      RBACReachable s → RBACReachable (s.assign_role owner role).2
  | remove {s : RBACState} (owner : Nat) :
      RBACReachable s → RBACReachable (s.remove_role owner).2

/-! ## `state.rs` / `contract.rs`: the event store and capture path

`ApplicationId`, `ChainId` and `Owner` are opaque ordered identifiers,
embedded as naturals. -/

/-- `EventSeverity` (state.rs lines 218-226). -/
inductive EventSeverity
  | Debug
  | Info
  | Warning
  | Error
  | Critical
deriving DecidableEq

/-- `CapturedEvent` (state.rs lines 168-181).  The `serde_json::Value`
payload is opaque to every operation considered here and is embedded as an
opaque token. -/
structure CapturedEvent where
  id : Nat
  source_app : Nat
  source_chain : Nat
  timestamp : Nat
  event_type : String
  data : Nat
  transaction_hash : String
  block_height : Option Nat
  severity : EventSeverity
deriving DecidableEq

/-- The variants of `AnalyticsError` (error.rs) reachable from the
event-capture path. -/
inductive AnalyticsError
  | Unauthorized
  | RateLimitError (e : RateLimitError)
  | DuplicateEvent (hash : String)
deriving DecidableEq

/-- `BTreeSet<String>::insert` as a sorted-list insertion. -/
def insertTxHash : List String → String → List String
  | [], x => [x]
  | y :: t, x =>
    if x < y then x :: y :: t else if x = y then y :: t else y :: insertTxHash t x

/-- The slice of `AnalyticsState` (state.rs lines 23-66) read or written by
the event-capture path; the fields that path never touches (monitored apps,
metric tables, RBAC state, admin owner) are omitted. -/
structure AnalyticsState where
  events : List CapturedEvent
  event_index : List (Nat × List Nat)
  app_index : List (Nat × List Nat)
  next_event_id : Nat
  tx_hash_index : List String
  rate_limiter : RateLimiterState
  merkle_index : MerkleIndex
  total_events_captured : Nat
  current_block : Nat
deriving DecidableEq

/-- `AnalyticsState::is_duplicate_tx` (state.rs lines 103-105). -/
def AnalyticsState.is_duplicate_tx (s : AnalyticsState) (tx_hash : String) : Bool :=
  s.tx_hash_index.contains tx_hash

/-- `AnalyticsContract::capture_event_internal` (contract.rs lines 422-446):
assign the id and block height, record the dedup hash, append to the log,
update both secondary indexes, insert into the Merkle tree, bump the
lifetime counter.  `dataHash` abstracts `CryptoHash::from(event.data_hash())`,
the byte-folding hash of the event's JSON serialization, whose exact value no
claim depends on. -/
def capture_event_internal (dataHash : CapturedEvent → Hash) (event0 : CapturedEvent)
    (s : AnalyticsState) : Except AnalyticsError (Option Nat) × AnalyticsState :=
  let event := { event0 with id := s.next_event_id, block_height := some s.current_block }
  (Except.ok (some event.id),
   { s with
     next_event_id := s.next_event_id + 1,
     tx_hash_index := insertTxHash s.tx_hash_index event.transaction_hash,
     events := s.events ++ [event],
     event_index := insertKey s.event_index event.timestamp
       ((lookupKey s.event_index event.timestamp).getD [] ++ [event.id]),
     app_index := insertKey s.app_index event.source_app
       ((lookupKey s.app_index event.source_app).getD [] ++ [event.id]),
     merkle_index := s.merkle_index.insert_hash event.id (dataHash event),
     total_events_captured := s.total_events_captured + 1 })

/-- `AnalyticsContract::capture_event_with_checks` (contract.rs lines
405-420): duplicate check, then rate-limiter admission, then capture. -/
def capture_event_with_checks (dataHash : CapturedEvent → Hash) (event : CapturedEvent)
    (s : AnalyticsState) : Except AnalyticsError (Option Nat) × AnalyticsState :=
  if s.is_duplicate_tx event.transaction_hash then
    (Except.error (AnalyticsError.DuplicateEvent event.transaction_hash), s)
  else
    match s.rate_limiter.check_and_increment event.source_app s.current_block with
    | (Except.error e, rl) =>
        (Except.error (AnalyticsError.RateLimitError e), { s with rate_limiter := rl })
    | (Except.ok _, rl) => capture_event_internal dataHash event { s with rate_limiter := rl }

/-- `AnalyticsContract::capture_event_batch` (contract.rs lines 448-466):
each event goes through the single-event path in order; a failure is logged
and skipped; the call returns `Ok` carrying the id of the last success. -/
def capture_event_batch (dataHash : CapturedEvent → Hash) (events : List CapturedEvent)
    (s : AnalyticsState) : Except AnalyticsError (Option Nat) × AnalyticsState :=
  let r := events.foldl
    (fun (acc : Option Nat × AnalyticsState) event =>
      match capture_event_with_checks dataHash event acc.2 with
      | (Except.ok id, s') => (id, s')
      | (Except.error _, s') => (acc.1, s'))
    (none, s)
  (Except.ok r.1, r.2)

/-- Sequential single-event execution: the list of per-event outcomes of
`capture_event_with_checks`, threaded through the state. -/
def runSingles (dataHash : CapturedEvent → Hash) :
    List CapturedEvent → AnalyticsState →
      List (Except AnalyticsError (Option Nat)) × AnalyticsState
  | [], s => ([], s)
  | e :: t, s =>
    let r := capture_event_with_checks dataHash e s
    let rest := runSingles dataHash t r.2
    (r.1 :: rest.1, rest.2)

/-- The identifier carried by the last successful outcome of a result list
(`none` when every outcome failed). -/
def lastSuccess (rs : List (Except AnalyticsError (Option Nat))) : Option Nat :=
  rs.foldl (fun acc r => match r with | Except.ok id => id | Except.error _ => acc) none

/-! ## `aggregations.rs`: the aggregation engine

The `f64` values here are idealized as real numbers (exact arithmetic; the
square root in `std_dev` forces `ℝ`), so this section is noncomputable. -/

noncomputable section

/-- `AggregationEngine::mean` (aggregations.rs lines 117-122). -/
def mean (values : List ℝ) : ℝ :=
  if values.isEmpty then 0 else values.sum / values.length

/-- `AggregationEngine::std_dev` (lines 125-134): the sample standard
deviation (denominator `n - 1`), 0 for fewer than two samples. -/
def std_dev (values : List ℝ) : ℝ :=
  if values.length < 2 then 0
  else Real.sqrt ((values.map fun v => (v - mean values) ^ 2).sum /
    ((values.length - 1 : ℕ) : ℝ))

/-- `AnomalyEvent` (lines 11-23). -/
structure AnomalyEvent where
  index : Nat
  value : ℝ
  z_score : ℝ
  timestamp : Nat
  event_id : Option Nat

/-- `AggregationEngine::detect_anomalies` (lines 156-182). -/
def detect_anomalies (values : List (Nat × ℝ)) (sensitivity : ℝ) : List AnomalyEvent :=
  let vals := values.map Prod.snd
  let m := mean vals
  let sd := std_dev vals
  if sd = 0 then []
  else
    values.enum.filterMap fun p =>
      let z := (p.2.2 - m) / sd
      if |z| > sensitivity then
        some { index := p.1, value := p.2.2, z_score := z, timestamp := p.2.1,
               event_id := none }
      else none

/-- `MovingAveragePoint` (lines 74-79). -/
structure MovingAveragePoint where
  timestamp : Nat
  value : ℝ
  window_size : Nat

/-- `values.windows(size)`: all contiguous windows of length `size` (callers
guarantee `1 ≤ size ≤ l.length`). -/
def windowsList (l : List (Nat × ℝ)) (size : Nat) : List (List (Nat × ℝ)) :=
  (List.range (l.length + 1 - size)).map fun i => (l.drop i).take size

/-- `AggregationEngine::moving_average` (lines 137-153).  The result is
`none` exactly when the Rust code panics: the guard `values.len() <
window_size` did not fire and `values.windows(0)` is reached. -/
def moving_average (values : List (Nat × ℝ)) (window_size : Nat) :
    Option (List MovingAveragePoint) :=
  if values.length < window_size then some []
  else if window_size = 0 then none
  else some ((windowsList values window_size).map fun w =>
    { timestamp := (w.getLast?.getD (0, 0)).1,
      value := (w.map Prod.snd).sum / (window_size : ℝ),
      window_size := window_size })

/-- Written from the claim of C5: the population mean `Σv / n`. -/
def specMean (values : List ℝ) : ℝ := values.sum / (values.length : ℝ)

/-- Written from the claim of C5: the population standard deviation
(denominator `n`). -/
def popStdDev (values : List ℝ) : ℝ :=
  Real.sqrt ((values.map fun v => (v - specMean values) ^ 2).sum /
    (values.length : ℝ))

/-- Anomaly detection exactly as claim C5 words it: population mean and
population standard deviation, flag `|z| > sensitivity`, empty when the
deviation is zero. -/
def detect_anomalies_population (values : List (Nat × ℝ)) (sensitivity : ℝ) :
    List AnomalyEvent :=
  let vals := values.map Prod.snd
  let m := specMean vals
  let sd := popStdDev vals
  if sd = 0 then []
  else
    values.enum.filterMap fun p =>
      let z := (p.2.2 - m) / sd
      if |z| > sensitivity then
        some { index := p.1, value := p.2.2, z_score := z, timestamp := p.2.1,
               event_id := none }
      else none

/-- Written from the amended claim of C5: the sample standard deviation
`sqrt(Σ(v − μ)² / (n − 1))` (which is 0 for `n < 2`, as `x / 0 = 0`). -/
def specSampleStdDev (values : List ℝ) : ℝ :=
  Real.sqrt ((values.map fun v => (v - specMean values) ^ 2).sum /
    ((values.length - 1 : ℕ) : ℝ))

/-- Anomaly detection as the amended claim C5 words it: population mean and
sample standard deviation, flag `|z| > sensitivity`, empty when the
deviation is zero. -/
def detect_anomalies_sample_spec (values : List (Nat × ℝ)) (sensitivity : ℝ) :
    List AnomalyEvent :=
  let vals := values.map Prod.snd
  let m := specMean vals
  let sd := specSampleStdDev vals
  if sd = 0 then []
  else
    values.enum.filterMap fun p =>
      let z := (p.2.2 - m) / sd
      if |z| > sensitivity then
        some { index := p.1, value := p.2.2, z_score := z, timestamp := p.2.1,
               event_id := none }
      else none

/-- A concrete series on which population-based and sample-based anomaly
flagging disagree at sensitivity 8/5. -/
def c5Series : List (Nat × ℝ) := [(0, 0), (1, 0), (2, 0), (3, 2)]

end

/-! ### Merkle lemmas -/

lemma length_combinePairs : ∀ l : List Hash, (combinePairs l).length = (l.length + 1) / 2
  | [] => rfl
  | [_] => by simp [combinePairs]
  | _ :: _ :: t => by
      simp only [combinePairs, List.length_cons, length_combinePairs t]
      omega

lemma combinePairs_getD :
    ∀ (l : List Hash) (j : Nat), 2 * j < l.length →
      (combinePairs l).getD j zeroHash =
        combineHashes (l.getD (2 * j) zeroHash) (l.getD (2 * j + 1) zeroHash)
  | [], _, h => by simp at h
  | [a], j, h => by
      have hj : j = 0 := by simp at h; omega
      subst hj
      simp [combinePairs, List.getD]
  | a :: b :: t, 0, _ => by simp [combinePairs, List.getD]
  | a :: b :: t, j + 1, h => by
      have ht : 2 * j < t.length := by
        simp only [List.length_cons] at h; omega
      have ih := combinePairs_getD t j ht
      have e1 : 2 * (j + 1) = 2 * j + 1 + 1 := by ring
      rw [e1]
      simpa [combinePairs, List.getD_cons_succ] using ih

lemma rootLoopFuel_stop {l : List Hash} (h : ¬ 1 < l.length) :
    ∀ f, rootLoopFuel f l = l
  | 0 => rfl
  | f + 1 => by simp [rootLoopFuel, h]

lemma rootLoopFuel_congr :
    ∀ (f g : Nat) (l : List Hash), l.length ≤ f → l.length ≤ g →
      rootLoopFuel f l = rootLoopFuel g l := by
  intro f
  induction f with
  | zero =>
      intro g l hf _
      have h : ¬ 1 < l.length := by omega
      rw [rootLoopFuel_stop h, rootLoopFuel_stop h]
  | succ f ih =>
      intro g l hf hg
      by_cases h : 1 < l.length
      · obtain ⟨g', rfl⟩ : ∃ g', g = g' + 1 := ⟨g - 1, by omega⟩
        rw [show rootLoopFuel (f + 1) l = rootLoopFuel f (combinePairs l) from by
              simp [rootLoopFuel, h],
            show rootLoopFuel (g' + 1) l = rootLoopFuel g' (combinePairs l) from by
              simp [rootLoopFuel, h]]
        have hlen : (combinePairs l).length ≤ l.length - 1 := by
          rw [length_combinePairs]; omega
        exact ih g' (combinePairs l) (by omega) (by omega)
      · rw [rootLoopFuel_stop h, rootLoopFuel_stop h]

lemma rootLoop_unfold (l : List Hash) :
    rootLoop l = if 1 < l.length then rootLoop (combinePairs l) else l := by
  by_cases h : 1 < l.length
  · rw [if_pos h]
    show rootLoopFuel l.length l = rootLoop (combinePairs l)
    obtain ⟨f, hf⟩ : ∃ f, l.length = f + 1 := ⟨l.length - 1, by omega⟩
    rw [hf, show rootLoopFuel (f + 1) l = rootLoopFuel f (combinePairs l) from by
          simp [rootLoopFuel, h]]
    exact rootLoopFuel_congr f (combinePairs l).length (combinePairs l)
      (by rw [length_combinePairs]; omega) le_rfl
  · rw [if_neg h]
    exact rootLoopFuel_stop h l.length

lemma proofLoopFuel_stop {hs : List Hash} (i : Nat) (h : ¬ 1 < hs.length) :
    ∀ f, proofLoopFuel f hs i = []
  | 0 => rfl
  | f + 1 => by simp [proofLoopFuel, h]

lemma proofLoopFuel_congr :
    ∀ (f g : Nat) (hs : List Hash) (i : Nat), hs.length ≤ f → hs.length ≤ g →
      proofLoopFuel f hs i = proofLoopFuel g hs i := by
  intro f
  induction f with
  | zero =>
      intro g hs i hf _
      have h : ¬ 1 < hs.length := by omega
      rw [proofLoopFuel_stop i h, proofLoopFuel_stop i h]
  | succ f ih =>
      intro g hs i hf hg
      by_cases h : 1 < hs.length
      · obtain ⟨g', rfl⟩ : ∃ g', g = g' + 1 := ⟨g - 1, by omega⟩
        simp only [proofLoopFuel, if_pos h]
        have hlen : (combinePairs hs).length ≤ hs.length - 1 := by
          rw [length_combinePairs]; omega
        rw [ih g' (combinePairs hs) (i / 2) (by omega) (by omega)]
      · rw [proofLoopFuel_stop i h, proofLoopFuel_stop i h]

lemma proofLoop_unfold (hs : List Hash) (i : Nat) :
    proofLoop hs i =
      if 1 < hs.length then
        (hs.getD (if i % 2 = 0 then i + 1 else i - 1) zeroHash, decide (i % 2 = 1)) ::
          proofLoop (combinePairs hs) (i / 2)
      else [] := by
  by_cases h : 1 < hs.length
  · rw [if_pos h]
    show proofLoopFuel hs.length hs i = _
    obtain ⟨f, hf⟩ : ∃ f, hs.length = f + 1 := ⟨hs.length - 1, by omega⟩
    rw [hf]
    simp only [proofLoopFuel, if_pos h]
    rw [proofLoopFuel_congr f (combinePairs hs).length (combinePairs hs) (i / 2)
      (by rw [length_combinePairs]; omega) le_rfl]
    rfl
  · rw [if_neg h]
    exact proofLoopFuel_stop i h hs.length

lemma verifyFold_cons (p : Hash × Bool) (rest : List (Hash × Bool)) (leaf : Hash) :
    verifyFold (p :: rest) leaf =
      verifyFold rest (if p.2 then combineHashes p.1 leaf else combineHashes leaf p.1) :=
  rfl

/-- Key round-trip lemma: folding the proof path generated for position `i`
starting from the `i`-th hash reproduces the root of the combine loop. -/
lemma verifyFold_proofLoop (hs : List Hash) (i : Nat) (hi : i < hs.length) :
    verifyFold (proofLoop hs i) (hs.getD i zeroHash) = (rootLoop hs).getD 0 zeroHash := by
  by_cases h : 1 < hs.length
  · rw [proofLoop_unfold, if_pos h, rootLoop_unfold, if_pos h]
    have hcl : i / 2 < (combinePairs hs).length := by rw [length_combinePairs]; omega
    rw [verifyFold_cons]
    have step :
        (if (decide (i % 2 = 1) : Bool) then
            combineHashes (hs.getD (if i % 2 = 0 then i + 1 else i - 1) zeroHash)
              (hs.getD i zeroHash)
          else combineHashes (hs.getD i zeroHash)
              (hs.getD (if i % 2 = 0 then i + 1 else i - 1) zeroHash)) =
          (combinePairs hs).getD (i / 2) zeroHash := by
      by_cases hpar : i % 2 = 0
      · have e : 2 * (i / 2) = i := by omega
        rw [combinePairs_getD hs (i / 2) (by omega), e]
        simp [hpar]
      · have h1 : i % 2 = 1 := by omega
        have e : 2 * (i / 2) = i - 1 := by omega
        rw [combinePairs_getD hs (i / 2) (by omega), e,
          show i - 1 + 1 = i from by omega]
        simp [h1]
    rw [step]
    exact verifyFold_proofLoop (combinePairs hs) (i / 2) hcl
  · rw [proofLoop_unfold, if_neg h, rootLoop_unfold, if_neg h]
    have hi0 : i = 0 := by omega
    subst hi0
    rfl
termination_by hs.length
decreasing_by rw [length_combinePairs]; omega

lemma combinePairs_ne_nil : ∀ {l : List Hash}, l ≠ [] → combinePairs l ≠ []
  | [], h => absurd rfl h
  | [_], _ => by simp [combinePairs]
  | _ :: _ :: _, _ => by simp [combinePairs]

lemma rootLoop_ne_nil (l : List Hash) (h : l ≠ []) : rootLoop l ≠ [] := by
  by_cases h1 : 1 < l.length
  · rw [rootLoop_unfold, if_pos h1]
    exact rootLoop_ne_nil (combinePairs l) (combinePairs_ne_nil h)
  · rw [rootLoop_unfold, if_neg h1]
    exact h
termination_by l.length
decreasing_by rw [length_combinePairs]; omega

lemma head?_eq_getD : ∀ {l : List Hash}, l ≠ [] → l.head? = some (l.getD 0 zeroHash)
  | [], h => absurd rfl h
  | _ :: _, _ => rfl

lemma verifyFold_injective :
    ∀ (path : List (Hash × Bool)) (a b : Hash),
      verifyFold path a = verifyFold path b → a = b
  | [], _, _, h => h
  | p :: t, a, b, h => by
      rw [verifyFold_cons, verifyFold_cons] at h
      have h2 := verifyFold_injective t _ _ h
      cases hb : p.2 <;> rw [hb] at h2 <;> simp only [if_pos, if_neg, Bool.false_eq_true,
        combineHashes] at h2
      · have := congrArg (· ^^^ p.1) h2
        simpa [Nat.xor_cancel_right] using this
      · have := congrArg (p.1 ^^^ ·) h2
        simpa [Nat.xor_cancel_left] using this

/-- `lookupKey` and `findIdx?` agree: the first entry with key `k` is found at
the first index whose key is `k`. -/
lemma lookupKey_findIdx {α : Type} :
    ∀ (l : List (Nat × α)) (k : Nat) (v : α), lookupKey l k = some v →
      ∃ i, l.findIdx? (fun p => p.1 == k) = some i ∧ l[i]? = some (k, v)
  | [], _, _, h => by simp [lookupKey] at h
  | (k', v') :: t, k, v, h => by
      by_cases hk : k = k'
      · subst hk
        have hv : v' = v := by simpa [lookupKey] using h
        subst hv
        exact ⟨0, by simp [List.findIdx?_cons], by simp⟩
      · have h' : lookupKey t k = some v := by
          simpa [lookupKey, hk] using h
        obtain ⟨i, hfind, hget⟩ := lookupKey_findIdx t k v h'
        refine ⟨i + 1, ?_, by simpa using hget⟩
        have hne : (k' == k) = false := by
          simp [Ne.symm hk]
        simp [List.findIdx?_cons, hne, List.findIdx?_succ, hfind]

lemma lookupKey_ne_nil {α : Type} {l : List (Nat × α)} {k : Nat} {v : α}
    (h : lookupKey l k = some v) : l ≠ [] := by
  intro he
  subst he
  simp [lookupKey] at h

lemma le_length_padToPow2 (l : List Hash) : l.length ≤ (padToPow2 l).length := by
  simp [padToPow2]

lemma padToPow2_getD {l : List Hash} {i : Nat} (hi : i < l.length) :
    (padToPow2 l).getD i zeroHash = l.getD i zeroHash := by
  rw [List.getD_eq_getElem?_getD, List.getD_eq_getElem?_getD, padToPow2,
    List.getElem?_append_left hi]

/-- Round trip at the index level: the proof generated for a present leaf
folds back to the recomputed root.  Shared by the round-trip and
tamper-resistance theorems. -/
lemma generate_verify_roundtrip (idx : MerkleIndex)
    (id : Nat) (h : Hash) (hlook : lookupKey idx.leaves id = some h) :
    ∃ p r, idx.generate_proof id = some p ∧ p.leaf_hash = h ∧
      recomputeRoot idx.leaves = some r ∧ verifyFold p.path p.leaf_hash = r := by
  obtain ⟨i, hfind, hget⟩ := lookupKey_findIdx idx.leaves id h hlook
  have hi : i < idx.leaves.length := by
    by_contra hc
    rw [List.getElem?_eq_none (by omega)] at hget
    exact Option.noConfusion hget
  have hne : idx.leaves ≠ [] := lookupKey_ne_nil hlook
  set hashes := padToPow2 (idx.leaves.map Prod.snd) with hh
  have hip : i < hashes.length := by
    have h1 : (idx.leaves.map Prod.snd).length ≤ hashes.length := by
      rw [hh]
      exact le_length_padToPow2 _
    have h2 : (idx.leaves.map Prod.snd).length = idx.leaves.length := List.length_map _ _
    omega
  have hgetD : hashes.getD i zeroHash = h := by
    rw [hh, padToPow2_getD (by simpa using hi), List.getD_eq_getElem?_getD,
      List.getElem?_map, hget]
    rfl
  have hproof : idx.generate_proof id =
      some { path := proofLoop hashes i, leaf_hash := h, event_id := id } := by
    simp [MerkleIndex.generate_proof, hlook, hfind, hh]
  have hpadne : hashes ≠ [] := by
    intro hc
    have := congrArg List.length hc
    simp only [List.length_nil] at this
    omega
  have hroot : recomputeRoot idx.leaves = some ((rootLoop hashes).getD 0 zeroHash) := by
    rw [recomputeRoot, if_neg (by simpa [List.isEmpty_iff] using hne), ← hh,
      head?_eq_getD (rootLoop_ne_nil _ hpadne)]
  refine ⟨_, _, hproof, rfl, hroot, ?_⟩
  rw [← hgetD]
  exact verifyFold_proofLoop hashes i hip

/-! ### C1/C2/C8 machinery: sorted-fold permutation invariance -/

lemma mem_insertKey {α : Type} :
    ∀ (l : List (Nat × α)) (k : Nat) (v : α) (p : Nat × α),
      p ∈ insertKey l k v → p = (k, v) ∨ p ∈ l
  | [], k, v, p, h => by simpa [insertKey] using h
  | (k', v') :: t, k, v, p, h => by
      by_cases h1 : k < k'
      · simp only [insertKey, if_pos h1, List.mem_cons] at h
        rcases h with h | h | h
        · exact Or.inl h
        · exact Or.inr (by simp [h])
        · exact Or.inr (by simp [h])
      · by_cases h2 : k = k'
        · simp only [insertKey, if_neg h1, if_pos h2, List.mem_cons] at h
          rcases h with h | h
          · exact Or.inl h
          · exact Or.inr (by simp [h])
        · simp only [insertKey, if_neg h1, if_neg h2, List.mem_cons] at h
          rcases h with h | h
          · exact Or.inr (by simp [h])
          · rcases mem_insertKey t k v p h with h3 | h3
            · exact Or.inl h3
            · exact Or.inr (by simp [h3])

lemma insertKey_sorted {α : Type} :
    ∀ (l : List (Nat × α)) (k : Nat) (v : α), SortedKeys l →
      SortedKeys (insertKey l k v)
  | [], k, v, _ => by simp [insertKey, SortedKeys]
  | (k', v') :: t, k, v, hs => by
      rw [SortedKeys, List.pairwise_cons] at hs
      obtain ⟨hhead, htail⟩ := hs
      by_cases h1 : k < k'
      · rw [insertKey, if_pos h1]
        refine List.Pairwise.cons ?_ (List.Pairwise.cons hhead htail)
        intro q hq
        rcases List.mem_cons.mp hq with rfl | hq2
        · exact h1
        · exact h1.trans (hhead q hq2)
      · by_cases h2 : k = k'
        · rw [insertKey, if_neg h1, if_pos h2]
          exact List.Pairwise.cons (fun q hq => h2 ▸ hhead q hq) htail
        · rw [insertKey, if_neg h1, if_neg h2]
          refine List.Pairwise.cons ?_ (insertKey_sorted t k v htail)
          intro q hq
          rcases mem_insertKey t k v q hq with rfl | hq2
          · omega
          · exact hhead q hq2

lemma insertKey_perm_of_not_mem {α : Type} :
    ∀ (l : List (Nat × α)) (k : Nat) (v : α), k ∉ keysOf l →
      (insertKey l k v).Perm ((k, v) :: l)
  | [], k, v, _ => List.Perm.refl _
  | (k', v') :: t, k, v, hk => by
      have hkk : k ≠ k' := by
        intro hc
        exact hk (by simp [keysOf, hc])
      by_cases h1 : k < k'
      · rw [insertKey, if_pos h1]
      · rw [insertKey, if_neg h1, if_neg hkk]
        have hk2 : k ∉ keysOf t := fun hc => hk (by simp [keysOf] at hc ⊢; exact Or.inr hc)
        exact ((insertKey_perm_of_not_mem t k v hk2).cons (k', v')).trans
          (List.Perm.swap (k, v) (k', v') t)

lemma foldl_insertKey_sorted {α : Type} :
    ∀ (l acc : List (Nat × α)), SortedKeys acc →
      SortedKeys (l.foldl (fun m p => insertKey m p.1 p.2) acc)
  | [], _, hs => hs
  | _ :: t, acc, hs =>
      foldl_insertKey_sorted t _ (insertKey_sorted acc _ _ hs)

lemma foldl_insertKey_perm {α : Type} :
    ∀ (l acc : List (Nat × α)), (keysOf (acc ++ l)).Nodup →
      (l.foldl (fun m p => insertKey m p.1 p.2) acc).Perm (acc ++ l)
  | [], acc, _ => by simp
  | x :: t, acc, hnd => by
      have hx : x.1 ∉ keysOf acc := by
        rw [keysOf, List.map_append, List.nodup_append] at hnd
        intro hc
        exact hnd.2.2 hc (by simp [keysOf])
      have hperm1 : (insertKey acc x.1 x.2).Perm (x :: acc) := by
        simpa using insertKey_perm_of_not_mem acc x.1 x.2 hx
      have hperm2 : (insertKey acc x.1 x.2 ++ t).Perm (acc ++ x :: t) :=
        (hperm1.append_right t).trans (List.perm_middle).symm
      have hnd2 : (keysOf (insertKey acc x.1 x.2 ++ t)).Nodup := by
        rw [keysOf]
        exact ((hperm2.map Prod.fst).nodup_iff).mpr hnd
      have ih := foldl_insertKey_perm t (insertKey acc x.1 x.2) hnd2
      exact ih.trans hperm2

lemma foldl_insertKey_eq_of_perm {α : Type} (l₁ l₂ : List (Nat × α))
    (hperm : l₁.Perm l₂) (hnd : (l₁.map Prod.fst).Nodup) :
    l₁.foldl (fun m p => insertKey m p.1 p.2) [] =
      l₂.foldl (fun m p => insertKey m p.1 p.2) [] := by
  have h1 := foldl_insertKey_perm l₁ [] (by simpa [keysOf] using hnd)
  have hnd₂ : (l₂.map Prod.fst).Nodup := ((hperm.map Prod.fst).nodup_iff).mp hnd
  have h2 := foldl_insertKey_perm l₂ [] (by simpa [keysOf] using hnd₂)
  have hs1 : List.Sorted (fun (a b : Nat × α) => a.1 < b.1)
      (l₁.foldl (fun m p => insertKey m p.1 p.2) []) :=
    foldl_insertKey_sorted l₁ [] (by simp [SortedKeys])
  have hs2 : List.Sorted (fun (a b : Nat × α) => a.1 < b.1)
      (l₂.foldl (fun m p => insertKey m p.1 p.2) []) :=
    foldl_insertKey_sorted l₂ [] (by simp [SortedKeys])
  have hp : (l₁.foldl (fun m p => insertKey m p.1 p.2) []).Perm
      (l₂.foldl (fun m p => insertKey m p.1 p.2) []) := by
    simpa using (h1.trans hperm).trans h2.symm
  exact @List.eq_of_perm_of_sorted _ (fun a b => a.1 < b.1)
    ⟨fun a b hab hba => (Nat.lt_asymm hab hba).elim⟩ _ _ hp hs1 hs2

lemma insertAll_leaves :
    ∀ (l : List (Nat × Hash)) (idx : MerkleIndex),
      (insertAll idx l).leaves = l.foldl (fun m p => insertKey m p.1 p.2) idx.leaves
  | [], _ => rfl
  | x :: t, idx => by
      simp only [insertAll, List.foldl_cons]
      exact insertAll_leaves t _

lemma insertAll_root :
    ∀ (l : List (Nat × Hash)) (idx : MerkleIndex), l ≠ [] →
      (insertAll idx l).root = recomputeRoot ((insertAll idx l).leaves)
  | [], _, h => absurd rfl h
  | x :: t, idx, _ => by
      rcases eq_or_ne t [] with rfl | hne
      · simp [insertAll, MerkleIndex.insert_hash]
      · simp only [insertAll, List.foldl_cons]
        exact insertAll_root t _ hne

/-! ### Claims C1, C2, C8 -/

/-- C1: the Merkle root is a pure function of the leaf set — inserting a set
of (identifier, content-hash) pairs via `insert_hash` in any permutation
order (hence in particular in any order versus ascending-identifier order)
yields the same final root, because the sorted leaf map ends up identical. -/
theorem merkle_root_insertion_order_invariant (d : Nat) (l₁ l₂ : List (Nat × Hash))
    (hperm : l₁.Perm l₂) (hnd : (l₁.map Prod.fst).Nodup) :
    (insertAll (MerkleIndex.new d) l₁).root = (insertAll (MerkleIndex.new d) l₂).root := by
  rcases eq_or_ne l₁ [] with rfl | hne
  · rw [hperm.nil_eq.symm]
  · have hne₂ : l₂ ≠ [] := by
      intro hc
      subst hc
      exact hne hperm.eq_nil
    rw [insertAll_root l₁ _ hne, insertAll_root l₂ _ hne₂,
      insertAll_leaves, insertAll_leaves]
    show recomputeRoot (l₁.foldl _ []) = recomputeRoot (l₂.foldl _ [])
    rw [foldl_insertKey_eq_of_perm l₁ l₂ hperm hnd]

/-- Witness for C1 at the spec's example {1,2,3,4}: a permutation insertion
order gives the same root as ascending order. -/
theorem merkle_root_insertion_order_invariant_witness :
    ([((3 : Nat), (5 : Hash)), (1, 7), (4, 9), (2, 11)]).Perm
        [(1, 7), (2, 11), (3, 5), (4, 9)] ∧
      (insertAll (MerkleIndex.new 16) [(3, 5), (1, 7), (4, 9), (2, 11)]).root =
        (insertAll (MerkleIndex.new 16) [(1, 7), (2, 11), (3, 5), (4, 9)]).root :=
  ⟨by decide, merkle_root_insertion_order_invariant 16 _ _ (by decide) (by decide)⟩

/-- C2: proof round-trip — for every identifier present in the leaf map of an
index whose root field is the recomputed root of its leaves, `generate_proof`
returns a proof and `verify_proof` accepts it against the current root. -/
theorem merkle_proof_roundtrip (idx : MerkleIndex)
    (hroot : idx.root = recomputeRoot idx.leaves)
    (id : Nat) (h : Hash) (hlook : lookupKey idx.leaves id = some h) :
    ∃ p r, idx.generate_proof id = some p ∧ idx.root = some r ∧
      MerkleIndex.verify_proof r p = true := by
  obtain ⟨p, r, hp, _, hr, hv⟩ := generate_verify_roundtrip idx id h hlook
  exact ⟨p, r, hp, by rw [hroot, hr], by simp [MerkleIndex.verify_proof, hv]⟩

/-- Witness for C2 on a concrete four-leaf index. -/
theorem merkle_proof_roundtrip_witness :
    (insertAll (MerkleIndex.new 16) [(1, 7), (2, 11), (3, 5), (4, 9)]).root =
        recomputeRoot (insertAll (MerkleIndex.new 16)
          [(1, 7), (2, 11), (3, 5), (4, 9)]).leaves ∧
      lookupKey (insertAll (MerkleIndex.new 16)
          [(1, 7), (2, 11), (3, 5), (4, 9)]).leaves 2 = some 11 ∧
      ∃ p r, (insertAll (MerkleIndex.new 16)
          [(1, 7), (2, 11), (3, 5), (4, 9)]).generate_proof 2 = some p ∧
        (insertAll (MerkleIndex.new 16) [(1, 7), (2, 11), (3, 5), (4, 9)]).root = some r ∧
        MerkleIndex.verify_proof r p = true :=
  ⟨by decide, by decide,
    merkle_proof_roundtrip _ (by decide) 2 11 (by decide)⟩

/-- C8: proof soundness under tampering — replacing the `leaf_hash` of a
generated proof by any different hash makes `verify_proof` reject against the
current root, because the verification fold is injective in the leaf. -/
theorem merkle_proof_tamper (idx : MerkleIndex)
    (hroot : idx.root = recomputeRoot idx.leaves)
    (id : Nat) (h : Hash) (hlook : lookupKey idx.leaves id = some h)
    (p : MerkleProof) (hp : idx.generate_proof id = some p)
    (h' : Hash) (hne : h' ≠ p.leaf_hash)
    (r : Hash) (hr : idx.root = some r) :
    MerkleIndex.verify_proof r { p with leaf_hash := h' } = false := by
  obtain ⟨p0, r0, hp0, _, hr0, hv0⟩ := generate_verify_roundtrip idx id h hlook
  have hpp : p0 = p := by
    rw [hp0] at hp
    exact Option.some.inj hp
  have hrr : r0 = r := by
    rw [hroot, hr0] at hr
    exact Option.some.inj hr
  subst hpp
  subst hrr
  simp only [MerkleIndex.verify_proof]
  rw [beq_eq_false_iff_ne]
  intro hcontra
  exact hne (verifyFold_injective _ _ _ (hcontra.trans hv0.symm))

/-- Witness for C8: tampering with a concrete generated proof (its leaf hash
replaced by 99) makes verification against the current root fail. -/
theorem merkle_proof_tamper_witness :
    (insertAll (MerkleIndex.new 16) [(1, 7), (2, 11), (3, 5), (4, 9)]).generate_proof 2 =
        some { path := [(7, true), (12, false)], leaf_hash := 11, event_id := 2 } ∧
      (insertAll (MerkleIndex.new 16) [(1, 7), (2, 11), (3, 5), (4, 9)]).root = some 0 ∧
      MerkleIndex.verify_proof 0
        { path := [(7, true), (12, false)], leaf_hash := 99, event_id := 2 } = false :=
  ⟨by decide, by decide,
    merkle_proof_tamper (insertAll (MerkleIndex.new 16) [(1, 7), (2, 11), (3, 5), (4, 9)])
      (by decide) 2 11 (by decide)
      { path := [(7, true), (12, false)], leaf_hash := 11, event_id := 2 } (by decide)
      99 (by decide) 0 (by decide)⟩

/-! ### Association-list lookup lemmas -/

lemma lookup_insertKey_self {α : Type} :
    ∀ (l : List (Nat × α)) (k : Nat) (v : α), lookupKey (insertKey l k v) k = some v
  | [], k, v => by simp [insertKey, lookupKey]
  | (k', v') :: t, k, v => by
      by_cases h1 : k < k'
      · simp [insertKey, h1, lookupKey]
      · by_cases h2 : k = k'
        · simp [insertKey, h1, h2, lookupKey]
        · simp [insertKey, h1, h2, lookupKey, lookup_insertKey_self t k v]

lemma lookup_insertKey_ne {α : Type} :
    ∀ (l : List (Nat × α)) (k : Nat) (v : α) (a : Nat), a ≠ k →
      lookupKey (insertKey l k v) a = lookupKey l a
  | [], k, v, a, ha => by simp [insertKey, lookupKey, ha]
  | (k', v') :: t, k, v, a, ha => by
      by_cases h1 : k < k'
      · simp [insertKey, h1, lookupKey, ha]
      · by_cases h2 : k = k'
        · subst h2
          simp [insertKey, h1, lookupKey, ha]
        · by_cases h3 : a = k'
          · simp [insertKey, h1, h2, lookupKey, h3]
          · simp [insertKey, h1, h2, lookupKey, h3,
              lookup_insertKey_ne t k v a ha]

lemma lookup_eraseKey_ne {α : Type} :
    ∀ (l : List (Nat × α)) (k a : Nat), a ≠ k →
      lookupKey (eraseKey l k) a = lookupKey l a
  | [], _, _, _ => rfl
  | (k', v') :: t, k, a, ha => by
      by_cases h1 : k = k'
      · subst h1
        simp [eraseKey, lookupKey, ha]
      · by_cases h2 : a = k'
        · simp [eraseKey, h1, lookupKey, h2]
        · simp [eraseKey, h1, lookupKey, h2, lookup_eraseKey_ne t k a ha]

/-! ### C3: admission fairness -/

lemma c3_step_from_new (app g c : Nat) (hg : 6 ≤ g) :
    (RateLimiterState.new (c3Config g c)).check_and_increment app 1 =
      (Except.ok (), c3State app g c 1) := by
  have h1 : ¬ (g ≤ 0) := by omega
  simp [RateLimiterState.new, c3Config, c3State, RateLimiterState.check_and_increment,
    RateLimiterState.checkCounters, RateLimiterState.reset_if_new_block,
    lookupKey, insertKey, f64AsU64, h1]

lemma c3_step (app g c k : Nat) (hg : 6 ≤ g) (hk : k ≤ 4) :
    (c3State app g c k).check_and_increment app 1 =
      (Except.ok (), c3State app g c (k + 1)) := by
  have h1 : ¬ (g ≤ k) := by omega
  have h2 : ¬ (5 ≤ k) := by omega
  simp [c3State, c3Config, RateLimiterState.check_and_increment,
    RateLimiterState.checkCounters, RateLimiterState.reset_if_new_block,
    lookupKey, insertKey, f64AsU64, h1, h2]

lemma c3_step_fail (app g c : Nat) (hg : 6 ≤ g) :
    (c3State app g c 5).check_and_increment app 1 =
      (Except.error (RateLimitError.AppLimitExceeded app 5 c),
       { c3State app g c 5 with blocked_apps := [(app, 1 + c)] }) := by
  have h1 : ¬ (g ≤ 5) := by omega
  simp [c3State, c3Config, RateLimiterState.check_and_increment,
    RateLimiterState.checkCounters, RateLimiterState.reset_if_new_block,
    lookupKey, insertKey, f64AsU64, h1]

lemma c3_iter (app g c : Nat) (hg : 6 ≤ g) :
    ∀ k, k ≤ 5 → iterCheck app 1 k (RateLimiterState.new (c3Config g c)) =
      if k = 0 then RateLimiterState.new (c3Config g c) else c3State app g c k := by
  intro k
  induction k with
  | zero => intro _; simp [iterCheck]
  | succ k ih =>
      intro hk
      show ((iterCheck app 1 k _).check_and_increment app 1).2 = _
      rw [ih (by omega), if_neg (Nat.succ_ne_zero k)]
      rcases Nat.eq_zero_or_pos k with rfl | hpos
      · rw [if_pos rfl, c3_step_from_new app g c hg]
      · rw [if_neg (by omega), c3_step app g c k hg (by omega)]

/-- C3: admission fairness — for a fresh limiter with per-app max 5, burst
multiplier 1.0, rate limiting enabled, not paused and an unreached global
limit (`6 ≤ g` keeps the global check from firing during the six calls), the
first five `check_and_increment` calls for any app at block 1 succeed, the
sixth fails with `AppLimitExceeded`, and the app is then listed in
`blocked_apps` with unblock height `1 + cooldown_blocks`. -/
theorem rate_limit_admission_fairness (app g c : Nat) (hg : 6 ≤ g) :
    (∀ k, k < 5 →
      ((iterCheck app 1 k (RateLimiterState.new (c3Config g c))).check_and_increment
          app 1).1 = Except.ok ()) ∧
    ((iterCheck app 1 5 (RateLimiterState.new (c3Config g c))).check_and_increment
        app 1).1 = Except.error (RateLimitError.AppLimitExceeded app 5 c) ∧
    lookupKey (iterCheck app 1 6 (RateLimiterState.new (c3Config g c))).blocked_apps
        app = some (1 + c) := by
  refine ⟨?_, ?_, ?_⟩
  · intro k hk
    rw [c3_iter app g c hg k (by omega)]
    interval_cases k
    · rw [if_pos rfl, c3_step_from_new app g c hg]
    · rw [if_neg (by omega), c3_step app g c 1 hg (by omega)]
    · rw [if_neg (by omega), c3_step app g c 2 hg (by omega)]
    · rw [if_neg (by omega), c3_step app g c 3 hg (by omega)]
    · rw [if_neg (by omega), c3_step app g c 4 hg (by omega)]
  · rw [c3_iter app g c hg 5 (by omega), if_neg (by omega),
      c3_step_fail app g c hg]
  · show lookupKey ((iterCheck app 1 5 _).check_and_increment app 1).2.blocked_apps
        app = _
    rw [c3_iter app g c hg 5 (by omega), if_neg (by omega),
      c3_step_fail app g c hg]
    simp [lookupKey]

/-- Witness for C3 with global max 6, cooldown 5, app 0. -/
theorem rate_limit_admission_fairness_witness :
    (6 ≤ 6) ∧
      ((∀ k, k < 5 →
        ((iterCheck 0 1 k (RateLimiterState.new (c3Config 6 5))).check_and_increment
            0 1).1 = Except.ok ()) ∧
      ((iterCheck 0 1 5 (RateLimiterState.new (c3Config 6 5))).check_and_increment
          0 1).1 = Except.error (RateLimitError.AppLimitExceeded 0 5 5) ∧
      lookupKey (iterCheck 0 1 6 (RateLimiterState.new (c3Config 6 5))).blocked_apps
          0 = some (1 + 5)) :=
  ⟨by decide, rate_limit_admission_fairness 0 6 5 (by decide)⟩

/-! ### C4: rejection atomicity -/

/-- C4 counterexample: a `check_and_increment` call that fails with
`AppLimitExceeded` does not leave the `RateLimiterState` unchanged — the app
is inserted into `blocked_apps` (with unblock height `1 + 3 = 4`). -/
theorem rate_limit_rejection_mutates_state :
    (c4State.check_and_increment 7 1).1 =
        Except.error (RateLimitError.AppLimitExceeded 7 0 3) ∧
      (c4State.check_and_increment 7 1).2 ≠ c4State ∧
      (c4State.check_and_increment 7 1).2.blocked_apps = [(7, 4)] := by
  have h : c4State.check_and_increment 7 1 =
      (Except.error (RateLimitError.AppLimitExceeded 7 0 3),
       { c4State with blocked_apps := [(7, 4)] }) := by
    simp [c4State, RateLimiterState.check_and_increment, RateLimiterState.checkCounters,
      RateLimiterState.reset_if_new_block, lookupKey, insertKey, f64AsU64]
  rw [h]
  refine ⟨rfl, ?_, rfl⟩
  intro hc
  have h2 := congrArg RateLimiterState.blocked_apps hc
  simp [c4State] at h2

lemma lookupKey_reset (l : List (Nat × BlockEventCount)) (blk a : Nat) :
    lookupKey (l.map fun p =>
        if p.2.block_height ≠ blk then (p.1, ⟨blk, 0⟩) else p) a =
      (lookupKey l a).map fun c => if c.block_height ≠ blk then ⟨blk, 0⟩ else c := by
  induction l with
  | nil => rfl
  | cons p t ih =>
      obtain ⟨k, c⟩ := p
      rw [List.map_cons]
      simp only [Ne, ite_not] at ih
      by_cases hb : c.block_height ≠ blk
      · rw [show (if (k, c).2.block_height ≠ blk
              then ((k, c).1, (⟨blk, 0⟩ : BlockEventCount)) else (k, c)) =
            (k, ⟨blk, 0⟩) from if_pos hb]
        by_cases ha : a = k
        · simp [lookupKey, ha, hb]
        · simp [lookupKey, ha, ih]
      · have hb' : c.block_height = blk := not_not.mp hb
        rw [show (if (k, c).2.block_height ≠ blk
              then ((k, c).1, (⟨blk, 0⟩ : BlockEventCount)) else (k, c)) =
            (k, c) from if_neg hb]
        by_cases ha : a = k
        · simp [lookupKey, ha, hb']
        · simp [lookupKey, ha, ih]

/-- What an error exit of the counter phase of `check_and_increment` can
change: the counters are only ever reset for a new block or materialized at
zero — never incremented — and `AppLimitExceeded` inserts the blocking
entry. -/
lemma checkCounters_error (s1 : RateLimiterState) (app blk : Nat)
    (e : RateLimitError) (s' : RateLimiterState)
    (h : s1.checkCounters app blk = (Except.error e, s')) :
    e ≠ RateLimitError.IngestionPaused ∧
    (∀ u b, e ≠ RateLimitError.AppBlocked u b) ∧
    (s'.global_counter = s1.global_counter ∨ s'.global_counter = ⟨blk, 0⟩) ∧
    (∀ a c', lookupKey s'.app_counters a = some c' →
       lookupKey s1.app_counters a = some c' ∨ c'.count = 0) ∧
    (∀ l cd, e = RateLimitError.AppLimitExceeded app l cd →
       lookupKey s'.blocked_apps app = some (blk + s1.config.cooldown_blocks)) := by
  simp only [RateLimiterState.checkCounters] at h
  set s2 := s1.reset_if_new_block blk with hs2
  have hg2 : s2.global_counter = s1.global_counter ∨ s2.global_counter = ⟨blk, 0⟩ := by
    rw [hs2, RateLimiterState.reset_if_new_block]
    split
    · right; rfl
    · left; rfl
  have hc2 : ∀ a c', lookupKey s2.app_counters a = some c' →
      lookupKey s1.app_counters a = some c' ∨ c'.count = 0 := by
    intro a c' hl
    rw [hs2, RateLimiterState.reset_if_new_block] at hl
    split at hl
    · simp only at hl
      rw [lookupKey_reset] at hl
      cases hl0 : lookupKey s1.app_counters a with
      | none => rw [hl0] at hl; exact Option.noConfusion hl
      | some c =>
          rw [hl0] at hl
          simp only [Option.map_some'] at hl
          replace hl := Option.some.inj hl
          by_cases hb : c.block_height ≠ blk
          · right
            rw [← hl]
            simp [hb]
          · left
            rw [← hl]
            simp [hb]
    · exact Or.inl hl
  have hcfg2 : s2.config = s1.config := by
    rw [hs2, RateLimiterState.reset_if_new_block]
    split <;> rfl
  split at h
  · -- global limit exceeded
    rw [Prod.mk.injEq] at h
    obtain ⟨h1, h2⟩ := h
    subst h2
    injection h1 with he
    subst he
    refine ⟨by simp, by simp, hg2, hc2, ?_⟩
    intro l cd habs
    exact absurd habs (by simp)
  · split at h
    · -- app limit exceeded
      rw [Prod.mk.injEq] at h
      obtain ⟨h1, h2⟩ := h
      subst h2
      injection h1 with he
      subst he
      refine ⟨by simp, by simp, hg2, ?_, ?_⟩
      · intro a c' hl
        simp only at hl
        by_cases ha : a = app
        · subst ha
          rw [lookup_insertKey_self] at hl
          cases hl0 : lookupKey s2.app_counters a with
          | none =>
              rw [hl0] at hl
              simp only [Option.getD_none] at hl
              replace hl := Option.some.inj hl
              right
              rw [← hl]
          | some c =>
              rw [hl0] at hl
              simp only [Option.getD_some] at hl
              replace hl := Option.some.inj hl
              exact hc2 a c' (by rw [hl0, hl])
        · rw [lookup_insertKey_ne _ _ _ _ ha] at hl
          exact hc2 a c' hl
      · intro l cd _
        simp only
        rw [hcfg2]
        exact lookup_insertKey_self _ _ _
    · -- success: contradiction
      rw [Prod.mk.injEq] at h
      exact absurd h.1 (by simp)

/-- C4 (amended): a rejected `check_and_increment` records no admission —
`IngestionPaused` and `AppBlocked` rejections leave the rate-limiter state
exactly unchanged; on the two limit rejections no counter is incremented
(the global counter is unchanged or reset to zero for the new block, and
every per-app entry afterwards is either its prior entry or a zero count),
`AppLimitExceeded` additionally inserting the app into `blocked_apps` with
unblock height `current_block + cooldown_blocks`; and a rejected
`capture_event_with_checks` leaves the event log, both indexes, the dedup
set, the Merkle tree and the lifetime counter untouched. -/
theorem rate_limit_rejection_no_admission :
    (∀ (s : RateLimiterState) (app blk : Nat) (e : RateLimitError)
        (s' : RateLimiterState),
      s.check_and_increment app blk = (Except.error e, s') →
      ((e = RateLimitError.IngestionPaused → s' = s) ∧
       (∀ u b, e = RateLimitError.AppBlocked u b → s' = s) ∧
       (s'.global_counter = s.global_counter ∨ s'.global_counter = ⟨blk, 0⟩) ∧
       (∀ a c', lookupKey s'.app_counters a = some c' →
          lookupKey s.app_counters a = some c' ∨ c'.count = 0) ∧
       (∀ l cd, e = RateLimitError.AppLimitExceeded app l cd →
          lookupKey s'.blocked_apps app = some (blk + s.config.cooldown_blocks)))) ∧
    (∀ (dataHash : CapturedEvent → Hash) (ev : CapturedEvent) (cs : AnalyticsState)
        (err : AnalyticsError) (cs' : AnalyticsState),
      capture_event_with_checks dataHash ev cs = (Except.error err, cs') →
      cs'.events = cs.events ∧ cs'.event_index = cs.event_index ∧
      cs'.app_index = cs.app_index ∧ cs'.tx_hash_index = cs.tx_hash_index ∧
      cs'.merkle_index = cs.merkle_index ∧ cs'.next_event_id = cs.next_event_id ∧
      cs'.total_events_captured = cs.total_events_captured) := by
  constructor
  · intro s app blk e s' h
    simp only [RateLimiterState.check_and_increment] at h
    split at h
    · -- paused
      rw [Prod.mk.injEq] at h
      obtain ⟨h1, h2⟩ := h
      subst h2
      injection h1 with he
      subst he
      exact ⟨fun _ => rfl, fun u b hq => absurd hq (by simp), Or.inl rfl,
        fun a c' hl => Or.inl hl, fun l cd hq => absurd hq (by simp)⟩
    · split at h
      · -- rate limiting disabled: success, contradiction
        rw [Prod.mk.injEq] at h
        exact absurd h.1 (by simp)
      · split at h
        · -- app currently blocked
          split at h
          · -- still blocked
            rw [Prod.mk.injEq] at h
            obtain ⟨h1, h2⟩ := h
            subst h2
            injection h1 with he
            subst he
            exact ⟨fun hq => absurd hq (by simp), fun u b _ => rfl, Or.inl rfl,
              fun a c' hl => Or.inl hl, fun l cd hq => absurd hq (by simp)⟩
          · -- block expired: erased, then counters
            have hsub := checkCounters_error _ app blk e s' h
            exact ⟨fun hq => absurd hq hsub.1, fun u b hq => absurd hq (hsub.2.1 u b),
              hsub.2.2.1, hsub.2.2.2.1, hsub.2.2.2.2⟩
        · -- not blocked: counters directly
          have hsub := checkCounters_error _ app blk e s' h
          exact ⟨fun hq => absurd hq hsub.1, fun u b hq => absurd hq (hsub.2.1 u b),
            hsub.2.2.1, hsub.2.2.2.1, hsub.2.2.2.2⟩
  · intro dataHash ev cs err cs' h
    simp only [capture_event_with_checks] at h
    split at h
    · rw [Prod.mk.injEq] at h
      obtain ⟨_, h2⟩ := h
      subst h2
      exact ⟨rfl, rfl, rfl, rfl, rfl, rfl, rfl⟩
    · split at h
      · rw [Prod.mk.injEq] at h
        obtain ⟨_, h2⟩ := h
        subst h2
        exact ⟨rfl, rfl, rfl, rfl, rfl, rfl, rfl⟩
      · simp only [capture_event_internal] at h
        rw [Prod.mk.injEq] at h
        exact absurd h.1 (by simp)

/-- Witness for the amended C4 at the concrete `AppLimitExceeded` rejection of
`c4State`: the blocking entry appears with unblock height `1 + cooldown`. -/
theorem rate_limit_rejection_no_admission_witness :
    lookupKey (c4State.check_and_increment 7 1).2.blocked_apps 7 =
      some (1 + c4State.config.cooldown_blocks) := by
  have h : c4State.check_and_increment 7 1 =
      (Except.error (RateLimitError.AppLimitExceeded 7 0 3),
       { c4State with blocked_apps := [(7, 4)] }) := by
    simp [c4State, RateLimiterState.check_and_increment, RateLimiterState.checkCounters,
      RateLimiterState.reset_if_new_block, lookupKey, insertKey, f64AsU64]
  have happ := (rate_limit_rejection_no_admission.1 c4State 7 1
    (RateLimitError.AppLimitExceeded 7 0 3) { c4State with blocked_apps := [(7, 4)] } h)
  have hres := happ.2.2.2.2 0 3 rfl
  rw [h]
  exact hres

/-! ### C9: batch partial-failure tolerance -/

lemma batch_foldl_eq_runSingles (dataHash : CapturedEvent → Hash) :
    ∀ (events : List CapturedEvent) (s : AnalyticsState) (acc : Option Nat),
      events.foldl
        (fun (acc : Option Nat × AnalyticsState) event =>
          match capture_event_with_checks dataHash event acc.2 with
          | (Except.ok id, s') => (id, s')
          | (Except.error _, s') => (acc.1, s')) (acc, s) =
      ((runSingles dataHash events s).1.foldl
        (fun a r => match r with | Except.ok id => id | Except.error _ => a) acc,
       (runSingles dataHash events s).2)
  | [], s, acc => rfl
  | e :: t, s, acc => by
      simp only [List.foldl_cons, runSingles]
      cases hr : capture_event_with_checks dataHash e s with
      | mk r1 s' =>
        cases r1 with
        | ok id =>
            simpa [hr] using batch_foldl_eq_runSingles dataHash t s' id
        | error err =>
            simpa [hr] using batch_foldl_eq_runSingles dataHash t s' acc

/-- C9: `capture_event_batch` threads every event of the batch through the
single-event path in order, never aborts on a failed event, always returns
`Ok`, and its result is the identifier of the last event that succeeded
(`none` when no event succeeded). -/
theorem batch_partial_failure_tolerance (dataHash : CapturedEvent → Hash)
    (events : List CapturedEvent) (s : AnalyticsState) :
    capture_event_batch dataHash events s =
      (Except.ok (lastSuccess (runSingles dataHash events s).1),
       (runSingles dataHash events s).2) := by
  simp only [capture_event_batch, lastSuccess, batch_foldl_eq_runSingles dataHash events s none]

/-! ### C6: dedup idempotence -/

lemma mem_insertTxHash_self : ∀ (l : List String) (x : String), x ∈ insertTxHash l x
  | [], x => by simp [insertTxHash]
  | y :: t, x => by
      by_cases h1 : x < y
      · simp [insertTxHash, h1]
      · by_cases h2 : x = y
        · simp [insertTxHash, h1, h2]
        · simp only [insertTxHash, if_neg h1, if_neg h2, List.mem_cons]
          exact Or.inr (mem_insertTxHash_self t x)

lemma contains_insertTxHash_self (l : List String) (x : String) :
    (insertTxHash l x).contains x = true := by
  simpa [List.elem_iff] using mem_insertTxHash_self l x

/-- The duplicate check precedes everything: a submission whose transaction
hash is already indexed is rejected with `DuplicateEvent` and the whole state
— the rate limiter included — is left untouched, whatever that state is. -/
lemma capture_duplicate_rejected (dataHash : CapturedEvent → Hash)
    (e : CapturedEvent) (s : AnalyticsState)
    (hdup : s.is_duplicate_tx e.transaction_hash = true) :
    capture_event_with_checks dataHash e s =
      (Except.error (AnalyticsError.DuplicateEvent e.transaction_hash), s) := by
  simp [capture_event_with_checks, hdup]

/-- C6: dedup idempotence — when a first event with a fresh transaction hash
is admitted (its rate-limiter check succeeds), a second submission with the
same hash is rejected with `DuplicateEvent` before the rate limiter is
consulted (the rejection holds for every rate-limiter substate and changes
nothing), and the lifetime counter `total_events_captured` has incremented
exactly once across the two submissions. -/
theorem dedup_idempotence (dataHash : CapturedEvent → Hash)
    (e₁ e₂ : CapturedEvent) (s₀ : AnalyticsState)
    (hsame : e₂.transaction_hash = e₁.transaction_hash)
    (hfresh : s₀.is_duplicate_tx e₁.transaction_hash = false)
    (hfirstok : (s₀.rate_limiter.check_and_increment e₁.source_app s₀.current_block).1 =
      Except.ok ()) :
    (capture_event_with_checks dataHash e₁ s₀).1 = Except.ok (some s₀.next_event_id) ∧
    (capture_event_with_checks dataHash e₁ s₀).2.total_events_captured =
      s₀.total_events_captured + 1 ∧
    (∀ rl : RateLimiterState,
      capture_event_with_checks dataHash e₂
          { (capture_event_with_checks dataHash e₁ s₀).2 with rate_limiter := rl } =
        (Except.error (AnalyticsError.DuplicateEvent e₂.transaction_hash),
         { (capture_event_with_checks dataHash e₁ s₀).2 with rate_limiter := rl })) ∧
    capture_event_with_checks dataHash e₂ (capture_event_with_checks dataHash e₁ s₀).2 =
      (Except.error (AnalyticsError.DuplicateEvent e₂.transaction_hash),
       (capture_event_with_checks dataHash e₁ s₀).2) := by
  cases hc : s₀.rate_limiter.check_and_increment e₁.source_app s₀.current_block with
  | mk r1 rl1 =>
    rw [hc] at hfirstok
    simp only at hfirstok
    subst hfirstok
    have h1 : capture_event_with_checks dataHash e₁ s₀ =
        capture_event_internal dataHash e₁ { s₀ with rate_limiter := rl1 } := by
      simp [capture_event_with_checks, hfresh, hc]
    have hdup2 : ∀ s₁ : AnalyticsState,
        s₁.tx_hash_index =
          insertTxHash s₀.tx_hash_index e₁.transaction_hash →
        s₁.is_duplicate_tx e₂.transaction_hash = true := by
      intro s₁ hs₁
      rw [AnalyticsState.is_duplicate_tx, hs₁, hsame]
      exact contains_insertTxHash_self _ _
    refine ⟨by rw [h1]; rfl, by rw [h1]; rfl, ?_, ?_⟩
    · intro rl
      exact capture_duplicate_rejected dataHash e₂ _ (hdup2 _ (by rw [h1]; rfl))
    · exact capture_duplicate_rejected dataHash e₂ _ (hdup2 _ (by rw [h1]; rfl))

/-- Witness for C6 on a concrete state and two events sharing hash "tx". -/
theorem dedup_idempotence_witness :
    ((⟨[], [], [], 0, [], RateLimiterState.new (c3Config 6 5), MerkleIndex.new 16, 0, 1⟩ :
        AnalyticsState).is_duplicate_tx "tx" = false) ∧
      ((capture_event_with_checks (fun _ => 0)
          ⟨0, 0, 0, 5, "t", 0, "tx", none, EventSeverity.Info⟩
          ⟨[], [], [], 0, [], RateLimiterState.new (c3Config 6 5), MerkleIndex.new 16,
            0, 1⟩).1 = Except.ok (some 0) ∧
       (capture_event_with_checks (fun _ => 0)
          ⟨0, 0, 0, 5, "t", 0, "tx", none, EventSeverity.Info⟩
          ⟨[], [], [], 0, [], RateLimiterState.new (c3Config 6 5), MerkleIndex.new 16,
            0, 1⟩).2.total_events_captured = 0 + 1) := by
  have happ := dedup_idempotence (fun _ => 0)
    ⟨0, 0, 0, 5, "t", 0, "tx", none, EventSeverity.Info⟩
    ⟨1, 1, 1, 5, "t", 1, "tx", none, EventSeverity.Info⟩
    ⟨[], [], [], 0, [], RateLimiterState.new (c3Config 6 5), MerkleIndex.new 16, 0, 1⟩
    rfl (by decide) (by
      have := c3_step_from_new 0 6 5 (by decide)
      simpa using congrArg Prod.fst this)
  exact ⟨by decide, happ.1, happ.2.1⟩

/-! ### C7: super-admin immutability -/

lemma assign_role_fail_iff (s : RBACState) (owner : Nat) (role : Role) :
    (s.assign_role owner role).1 = Except.error RBACError.CannotDemoteSuperAdmin ↔
      (s.super_admin = some owner ∧ role ≠ Role.SuperAdmin) := by
  rw [RBACState.assign_role]
  by_cases hcond : s.super_admin = some owner ∧ role ≠ Role.SuperAdmin
  · rw [if_pos hcond]
    simpa using hcond
  · rw [if_neg hcond]
    simpa using hcond

lemma remove_role_fail_iff (s : RBACState) (owner : Nat) :
    (s.remove_role owner).1 = Except.error RBACError.CannotDemoteSuperAdmin ↔
      s.super_admin = some owner := by
  rw [RBACState.remove_role]
  by_cases hcond : s.super_admin = some owner
  · rw [if_pos hcond]
    simpa using hcond
  · rw [if_neg hcond]
    simpa using hcond

/-- C7: in every RBAC state reachable through `new`, `assign_role` and
`remove_role`, the designated super-admin is mapped to `SuperAdmin`;
`assign_role(owner, role)` fails with `CannotDemoteSuperAdmin` exactly when
`owner` is the super-admin and `role ≠ SuperAdmin`, `remove_role(owner)`
fails exactly when `owner` is the super-admin, and both failures leave the
role map unchanged. -/
theorem rbac_super_admin_immutable (s : RBACState) (h : RBACReachable s) :
    (∀ sa, s.super_admin = some sa → lookupKey s.roles sa = some Role.SuperAdmin) ∧
    (∀ owner role,
      ((s.assign_role owner role).1 = Except.error RBACError.CannotDemoteSuperAdmin ↔
        (s.super_admin = some owner ∧ role ≠ Role.SuperAdmin)) ∧
      ((s.assign_role owner role).1 = Except.error RBACError.CannotDemoteSuperAdmin →
        (s.assign_role owner role).2 = s)) ∧
    (∀ owner,
      ((s.remove_role owner).1 = Except.error RBACError.CannotDemoteSuperAdmin ↔
        s.super_admin = some owner) ∧
      ((s.remove_role owner).1 = Except.error RBACError.CannotDemoteSuperAdmin →
        (s.remove_role owner).2 = s)) := by
  refine ⟨?_, ?_, ?_⟩
  · induction h with
    | new sa =>
        intro sa' hsa'
        have heq : sa = sa' := by simpa [RBACState.new] using hsa'
        subst heq
        simp [RBACState.new, lookupKey]
    | assign owner role hs ih =>
        rename_i s1
        intro sa' hsa'
        rw [RBACState.assign_role] at hsa' ⊢
        by_cases hcond : s1.super_admin = some owner ∧ role ≠ Role.SuperAdmin
        · rw [if_pos hcond] at hsa' ⊢
          exact ih sa' hsa'
        · rw [if_neg hcond] at hsa' ⊢
          simp only at hsa' ⊢
          by_cases howner : owner = sa'
          · subst howner
            have hrole : role = Role.SuperAdmin := by
              by_contra hr
              exact hcond ⟨hsa', hr⟩
            rw [hrole]
            exact lookup_insertKey_self _ _ _
          · rw [lookup_insertKey_ne _ _ _ _ (Ne.symm howner)]
            exact ih sa' hsa'
    | remove owner hs ih =>
        rename_i s1
        intro sa' hsa'
        rw [RBACState.remove_role] at hsa' ⊢
        by_cases hcond : s1.super_admin = some owner
        · rw [if_pos hcond] at hsa' ⊢
          exact ih sa' hsa'
        · rw [if_neg hcond] at hsa' ⊢
          simp only at hsa' ⊢
          have howner : sa' ≠ owner := by
            intro hc
            subst hc
            exact hcond hsa'
          rw [lookup_eraseKey_ne _ _ _ howner]
          exact ih sa' hsa'
  · intro owner role
    refine ⟨assign_role_fail_iff s owner role, ?_⟩
    intro hfail
    rw [RBACState.assign_role]
    rw [assign_role_fail_iff] at hfail
    rw [if_pos hfail]
  · intro owner
    refine ⟨remove_role_fail_iff s owner, ?_⟩
    intro hfail
    rw [RBACState.remove_role]
    rw [remove_role_fail_iff] at hfail
    rw [if_pos hfail]

/-- Witness for C7 at the freshly initialized state with super-admin 0. -/
theorem rbac_super_admin_immutable_witness :
    (∀ sa, (RBACState.new 0).super_admin = some sa →
      lookupKey (RBACState.new 0).roles sa = some Role.SuperAdmin) ∧
    (∀ owner role,
      (((RBACState.new 0).assign_role owner role).1 =
          Except.error RBACError.CannotDemoteSuperAdmin ↔
        ((RBACState.new 0).super_admin = some owner ∧ role ≠ Role.SuperAdmin)) ∧
      (((RBACState.new 0).assign_role owner role).1 =
          Except.error RBACError.CannotDemoteSuperAdmin →
        ((RBACState.new 0).assign_role owner role).2 = RBACState.new 0)) ∧
    (∀ owner,
      (((RBACState.new 0).remove_role owner).1 =
          Except.error RBACError.CannotDemoteSuperAdmin ↔
        (RBACState.new 0).super_admin = some owner) ∧
      (((RBACState.new 0).remove_role owner).1 =
          Except.error RBACError.CannotDemoteSuperAdmin →
        ((RBACState.new 0).remove_role owner).2 = RBACState.new 0)) :=
  rbac_super_admin_immutable (RBACState.new 0) (RBACReachable.new 0)

/-! ### C10: moving_average is not total -/

/-- C10: `moving_average` panics (modelled as `none`) for `window_size = 0`
on any non-empty series, because the guard `values.len() < window_size`
cannot fire and `values.windows(0)` is reached; for `window_size ≥ 1` it is
total and emits one averaged point per contiguous window, timestamped at the
window's last point. -/
theorem moving_average_totality :
    (∀ values : List (Nat × ℝ), values ≠ [] → moving_average values 0 = none) ∧
    (∀ (values : List (Nat × ℝ)) (ws : Nat), 1 ≤ ws →
      ∃ pts, moving_average values ws = some pts ∧
        pts.length = (if values.length < ws then 0 else values.length + 1 - ws) ∧
        (∀ j, j < pts.length →
          (pts.getD j ⟨0, 0, 0⟩).timestamp = (values.getD (j + ws - 1) (0, 0)).1 ∧
          (pts.getD j ⟨0, 0, 0⟩).value =
            (((values.drop j).take ws).map Prod.snd).sum / (ws : ℝ) ∧
          (pts.getD j ⟨0, 0, 0⟩).window_size = ws)) := by
  constructor
  · intro values _
    simp [moving_average]
  · intro values ws hws
    by_cases hlen : values.length < ws
    · refine ⟨[], ?_, ?_, ?_⟩
      · simp only [moving_average]
        rw [if_pos hlen]
      · simp [hlen]
      · intro j hj
        simp at hj
    · refine ⟨(windowsList values ws).map fun w =>
          ({ timestamp := (w.getLast?.getD (0, 0)).1,
             value := (w.map Prod.snd).sum / (ws : ℝ),
             window_size := ws } : MovingAveragePoint), ?_, ?_, ?_⟩
      · simp only [moving_average]
        rw [if_neg hlen, if_neg (by omega)]
      · rw [if_neg hlen]
        simp [windowsList]
      · intro j hj
        simp only [List.length_map, windowsList, List.length_range] at hj
        have hjr : j < values.length + 1 - ws := hj
        have hpts : ((windowsList values ws).map fun w =>
            ({ timestamp := (w.getLast?.getD (0, 0)).1,
               value := (w.map Prod.snd).sum / (ws : ℝ),
               window_size := ws } : MovingAveragePoint)).getD j ⟨0, 0, 0⟩ =
            { timestamp := (((values.drop j).take ws).getLast?.getD (0, 0)).1,
              value := (((values.drop j).take ws).map Prod.snd).sum / (ws : ℝ),
              window_size := ws } := by
          rw [List.getD_eq_getElem?_getD, List.getElem?_map, windowsList,
            List.getElem?_map, List.getElem?_range hjr]
          rfl
        have hwlast : ((values.drop j).take ws).getLast? = values[j + ws - 1]? := by
          have hwlen : ((values.drop j).take ws).length = ws := by
            rw [List.length_take, List.length_drop]
            omega
          rw [List.getLast?_eq_getElem?, hwlen, List.getElem?_take,
            if_pos (by omega), List.getElem?_drop,
            show j + (ws - 1) = j + ws - 1 from by omega]
        refine ⟨?_, ?_, ?_⟩
        · rw [hpts]
          show (((values.drop j).take ws).getLast?.getD (0, 0)).1 = _
          rw [hwlast, List.getD_eq_getElem?_getD]
        · rw [hpts]
        · rw [hpts]

/-- Witness for C10: the panic at window 0 on a one-point series, and the
total behavior at window 2 on a three-point series. -/
theorem moving_average_totality_witness :
    moving_average [((0 : Nat), (1 : ℝ))] 0 = none ∧
      (∃ pts, moving_average [((0 : Nat), (1 : ℝ)), (1, 2), (2, 3)] 2 = some pts ∧
        pts.length =
          (if ([((0 : Nat), (1 : ℝ)), (1, 2), (2, 3)]).length < 2 then 0
           else ([((0 : Nat), (1 : ℝ)), (1, 2), (2, 3)]).length + 1 - 2) ∧
        (∀ j, j < pts.length →
          (pts.getD j ⟨0, 0, 0⟩).timestamp =
            (([((0 : Nat), (1 : ℝ)), (1, 2), (2, 3)]).getD (j + 2 - 1) (0, 0)).1 ∧
          (pts.getD j ⟨0, 0, 0⟩).value =
            (((([((0 : Nat), (1 : ℝ)), (1, 2), (2, 3)]).drop j).take 2).map
              Prod.snd).sum / ((2 : Nat) : ℝ) ∧
          (pts.getD j ⟨0, 0, 0⟩).window_size = 2)) :=
  ⟨moving_average_totality.1 [(0, 1)] (by simp),
   moving_average_totality.2 [(0, 1), (1, 2), (2, 3)] 2 (by omega)⟩

/-! ### C5: anomaly detection -/

lemma mean_eq_specMean (values : List ℝ) : mean values = specMean values := by
  rcases eq_or_ne values [] with rfl | hne
  · simp [mean, specMean]
  · rw [mean, if_neg (by simpa [List.isEmpty_iff] using hne), specMean]

lemma std_dev_eq_specSampleStdDev (values : List ℝ) :
    std_dev values = specSampleStdDev values := by
  by_cases h : values.length < 2
  · rw [std_dev, if_pos h]
    cases values with
    | nil => simp [specSampleStdDev]
    | cons a t =>
        cases t with
        | nil => simp [specSampleStdDev]
        | cons b t2 =>
            exfalso
            simp only [List.length_cons] at h
            omega
  · rw [std_dev, if_neg h, specSampleStdDev, mean_eq_specMean]

/-- C5 (amended): `detect_anomalies` computes the population mean and the
*sample* standard deviation (denominator `n − 1`) over all values, flags
exactly the points whose z-score satisfies `|z| > sensitivity`, and returns
an empty result when that standard deviation is 0. -/
theorem detect_anomalies_sample_characterization (values : List (Nat × ℝ))
    (sensitivity : ℝ) :
    detect_anomalies values sensitivity =
      detect_anomalies_sample_spec values sensitivity := by
  simp only [detect_anomalies, detect_anomalies_sample_spec]
  rw [mean_eq_specMean, std_dev_eq_specSampleStdDev]

/-- C5 counterexample: on `c5Series` with sensitivity `8/5` the code flags
nothing (the sample deviation is 1 and the largest `|z|` is `3/2 < 8/5`),
while the claimed population-deviation rule flags index 3
(`|z| = (3/2)/sqrt(3/4) > 8/5`): the claim's "population standard deviation"
does not match the code. -/
theorem detect_anomalies_population_mismatch :
    detect_anomalies c5Series (8 / 5) = [] ∧
      detect_anomalies_population c5Series (8 / 5) ≠ [] := by
  have hmap : c5Series.map Prod.snd = [0, 0, 0, 2] := by
    simp [c5Series]
  have hmean : mean [(0 : ℝ), 0, 0, 2] = 1 / 2 := by
    simp [mean]
    norm_num
  have hsd : std_dev [(0 : ℝ), 0, 0, 2] = 1 := by
    have h1 : (([0, 0, 0, 2] : List ℝ).map fun v => (v - mean [0, 0, 0, 2]) ^ 2).sum
        = 3 := by
      rw [hmean]
      norm_num
    rw [std_dev, if_neg (by norm_num), h1]
    rw [show ((([(0 : ℝ), 0, 0, 2]).length - 1 : ℕ) : ℝ) = 3 by norm_num]
    rw [show (3 : ℝ) / 3 = 1 by norm_num]
    exact Real.sqrt_one
  constructor
  · have hc0 : ¬ (|((0 : ℝ) - 1 / 2) / 1| > 8 / 5) := by
      rw [show ((0 : ℝ) - 1 / 2) / 1 = -(1 / 2) by norm_num, abs_neg,
        abs_of_nonneg (by norm_num)]
      norm_num
    have hc2 : ¬ (|((2 : ℝ) - 1 / 2) / 1| > 8 / 5) := by
      rw [show ((2 : ℝ) - 1 / 2) / 1 = 3 / 2 by norm_num,
        abs_of_nonneg (by norm_num)]
      norm_num
    simp only [detect_anomalies]
    rw [hmap, hmean, hsd, if_neg (by norm_num)]
    simp [c5Series, List.enum, List.enumFrom, hc0, hc2]
    constructor
    · rw [abs_of_nonneg (by norm_num)]
      norm_num
    · rw [abs_of_nonneg (by norm_num)]
      norm_num
  · have hpopm : specMean [(0 : ℝ), 0, 0, 2] = 1 / 2 := by
      simp [specMean]
      norm_num
    have hpopsd : popStdDev [(0 : ℝ), 0, 0, 2] = Real.sqrt (3 / 4) := by
      have h1 : (([0, 0, 0, 2] : List ℝ).map
          fun v => (v - specMean [0, 0, 0, 2]) ^ 2).sum = 3 := by
        rw [hpopm]
        norm_num
      rw [popStdDev, h1, show ((([(0 : ℝ), 0, 0, 2]).length : ℕ) : ℝ) = 4 by norm_num,
        show (3 : ℝ) / 4 = 3 / 4 from rfl]
    have hsdpos : (0 : ℝ) < Real.sqrt (3 / 4) := Real.sqrt_pos.mpr (by norm_num)
    have hsdne : popStdDev [(0 : ℝ), 0, 0, 2] ≠ 0 := by
      rw [hpopsd]
      exact ne_of_gt hsdpos
    have hflag : |((2 : ℝ) - 1 / 2) / Real.sqrt (3 / 4)| > 8 / 5 := by
      have ht2 : Real.sqrt (3 / 4) ^ 2 = 3 / 4 := Real.sq_sqrt (by norm_num)
      rw [show ((2 : ℝ) - 1 / 2) = 3 / 2 by norm_num,
        abs_of_nonneg (by positivity), gt_iff_lt, lt_div_iff hsdpos]
      nlinarith [ht2, hsdpos, sq_nonneg (Real.sqrt (3 / 4) - 7 / 8)]
    intro hnil
    simp only [detect_anomalies_population] at hnil
    rw [hmap, if_neg hsdne] at hnil
    have hmem : ((3 : Nat), ((3 : Nat), (2 : ℝ))) ∈ c5Series.enum := by
      simp [c5Series, List.enum, List.enumFrom]
    have hnone := List.filterMap_eq_nil.mp hnil _ hmem
    dsimp only at hnone
    rw [hpopm, hpopsd, if_pos hflag] at hnone
    exact Option.noConfusion hnone

end Pine
